import Mathlib

/-!
Verification development for the ReactiveRS synchronous reactive runtime.

The Rust source is embedded shallowly as follows.

* `RVal` is a universal value type covering the value types used by the
  process graphs under study (`()`, `bool`, integers, pairs, `LoopStatus`).
* `Proc` is the deep syntax of the `Process` combinators from
  `src/reactive/process.rs` and the signal processes from
  `src/reactive/signal/pure_signal.rs` and
  `src/reactive/signal/value_signal.rs`.
* `Cont` is the defunctionalisation of every closure shape that the Rust
  code ever stores in a scheduler queue or calls as a `Continuation`:
  each constructor corresponds to one closure in the source, and
  `step` implements what `call` / `call_box` does for it.
* `RState` is the `SequentialRuntime` state (its four `Vec` queues, with
  `push`/`pop`-at-the-end modelled as `cons`/head of a list) together with
  the shared cells of one pure signal, one value signal and the join
  points allocated by `Join::call`.
* Every `Continuation::call` in the source is a tail call, so a running
  continuation is a stack of `Task`s; `step` performs exactly one source
  call and `runTasks` is the trampoline, fuelled because process graphs
  can diverge.  `drainCurrent`, `drainEnd`, `instant`, `executeAux`
  mirror `SequentialRuntime::instant` and `execute` from
  `src/reactive/runtime/sequential_runtime.rs`.
-/

namespace ReactiveRS

/-- Universal value type for process results and signal values. -/
inductive RVal where
  | unit : RVal
  | bool (b : Bool) : RVal
  | nat (n : Nat) : RVal
  | pair (a b : RVal) : RVal
  | loopContinue : RVal
  | loopExit (v : RVal) : RVal
deriving DecidableEq

mutual

/-- Deep syntax of the `Process` combinators (process.rs) and the signal
processes (pure_signal.rs, value_signal.rs).  `countdown n v` is the
stateful `ProcessMut` used under `while_loop` (the `iter` closures of
tests.rs): its `call_mut` yields `Continue` on `n` successive invocations
and then `Exit v`. -/
inductive Proc where
  | value (v : RVal) : Proc
  | map (f : RVal → RVal) (p : Proc) : Proc
  | pause (p : Proc) : Proc
  | pthen (p q : Proc) : Proc
  | join (p q : Proc) : Proc
  | ifElse (c p q : Proc) : Proc
  | whileLoop (p : Proc) : Proc
  | countdown (n : Nat) (v : RVal) : Proc
  | pemit : Proc
  | ppresent : Proc
  | vemit (p : Proc) : Proc
  | vawait : Proc

/-- Defunctionalised continuations: one constructor per closure shape the
source stores in a queue, a signal cell or a join point.
* `ret` — the result-capturing closure of `execute_process`.
* `kmap f k` — `Map::call`'s `move|runtime, x| next.call(runtime, f(x))`.
* `kthen q k` — `Then::call`'s `move|runtime, _| q.call(runtime, next)`.
* `krun p k` — `Pause::call`'s boxed `|run, _| process.call(run, next)`
  (also the seeding closure of `execute_process`).
* `kjoinSeed first p j` — the two closures `Join::call` pushes onto
  `current` (`first = true` for `p1`).
* `kjoinFill first j` — the fill-and-`try_call_next` closure inside them.
* `kif p q k` — `If::call`'s dispatching closure.
* `kvemit k` — `VEmit::call`'s `move|runtime, v| { sig.emit(runtime, v); c.call(runtime, v) }`.
* `kcallWith k v` — the scheduled `move|runtime, ()| c.call_box(runtime, v)`
  closures (`emit` flushing `waiting_present` with `true`, the value end
  hook delivering the accumulated value).
* `kpEndReset` — `PSignalRuntimeRef::emit`'s end-of-instant hook.
* `kpFalseHook` — `test_present`'s end-of-instant hook resolving the
  remaining `waiting_present` with `false`.
* `kvEndHook` — `VSignalRuntimeRef::emit`'s end-of-instant hook.
* `kregCurrent`/`kregNext` — user continuations that register another
  continuation, as in tests.rs (`|run, ()| run.on_next_instant(c)`). -/
inductive Cont where
  | ret : Cont
  | kmap (f : RVal → RVal) (k : Cont) : Cont
  | kthen (q : Proc) (k : Cont) : Cont
  | krun (p : Proc) (k : Cont) : Cont
  | kjoinSeed (first : Bool) (p : Proc) (j : Nat) : Cont
  | kjoinFill (first : Bool) (j : Nat) : Cont
  | kif (p q : Proc) (k : Cont) : Cont
  | kvemit (k : Cont) : Cont
  | kcallWith (k : Cont) (v : RVal) : Cont
  | kpEndReset : Cont
  | kpFalseHook : Cont
  | kvEndHook : Cont
  | kregCurrent (k : Cont) : Cont
  | kregNext (k : Cont) : Cont

/-- Continuations passed to `call_mut`, receiving `(fresh_process, value)`.
`mwhile k` is the closure of `While::call` (process.rs lines 455-461). -/
inductive MCont where
  | mwhile (k : Cont) : MCont

end

/-- `PSignalRuntime` (pure_signal.rs): callback list, `present()` waiter
list and presence status of one pure signal. -/
structure PCell where
  callbacks : List Cont
  waitingPresent : List Cont
  status : Bool

/-- `VSignalRuntime` (value_signal.rs): adds the `await` waiter list, the
gather fold and the default/current accumulated values. -/
structure VCell where
  callbacks : List Cont
  waitingPresent : List Cont
  waitingAwait : List Cont
  status : Bool
  gather : RVal → RVal → RVal
  defaultValue : RVal
  currentValue : RVal

/-- The rendezvous cell allocated by `Join::call` (`JoinPoint`). -/
structure JoinCell where
  v1 : Option RVal
  v2 : Option RVal
  next : Option Cont

/-- The `SequentialRuntime` queue state plus the shared signal and join
cells, and the `execute_process` result slot. -/
structure RState where
  currentInstant : List Cont
  endInstant : List Cont
  nextCurrentInstant : List Cont
  nextEndInstant : List Cont
  psig : PCell
  vsig : VCell
  joins : List JoinCell
  result : Option RVal

/-- `SequentialRuntime::on_current_instant`: push onto `current_instant`. -/
def onCurrentInstant (c : Cont) (st : RState) : RState :=
  { st with currentInstant := c :: st.currentInstant }

/-- `SequentialRuntime::on_next_instant`: push onto `next_current_instant`. -/
def onNextInstant (c : Cont) (st : RState) : RState :=
  { st with nextCurrentInstant := c :: st.nextCurrentInstant }

/-- `SequentialRuntime::on_end_of_instant`: push onto `end_instant`. -/
def onEndOfInstant (c : Cont) (st : RState) : RState :=
  { st with endInstant := c :: st.endInstant }

/-- The `while let Some(c) = sig.callbacks.pop() { runtime.on_current_instant(c) }`
loop of `emit` (the head of the list is the top of the `Vec`). -/
def flushOnto : List Cont → RState → RState
  | [], st => st
  | c :: rest, st => flushOnto rest (onCurrentInstant c st)

/-- The `while let Some(c) = sig.waiting_present.pop()` loop of `emit`:
each waiter is rescheduled as a closure calling it with `true`. -/
def flushTrueOnto : List Cont → RState → RState
  | [], st => st
  | c :: rest, st =>
      flushTrueOnto rest (onCurrentInstant (Cont.kcallWith c (RVal.bool true)) st)

/-- First block of `PSignalRuntimeRef::emit` (pure_signal.rs lines 28-48):
flush `callbacks` and `waiting_present` onto `current`, set
`status = true`, then register the status-reset end-of-instant hook. -/
def pEmitUpdate (st : RState) : RState :=
  let st1 := flushOnto st.psig.callbacks st
  let st2 := flushTrueOnto st.psig.waitingPresent st1
  let st3 := { st2 with psig := { callbacks := [], waitingPresent := [], status := true } }
  onEndOfInstant Cont.kpEndReset st3

/-- First block of `VSignalRuntimeRef::emit` (value_signal.rs lines 37-49)
plus the registration of its end-of-instant hook (lines 51-64):
`current_value = gather(current_value, value)`, `status = true`. -/
def vEmitUpdate (g : RVal) (st : RState) : RState :=
  let st1 := flushOnto st.vsig.callbacks st
  let st2 := flushTrueOnto st.vsig.waitingPresent st1
  let st3 := { st2 with vsig := { st2.vsig with
                  callbacks := [], waitingPresent := [],
                  currentValue := st2.vsig.gather st2.vsig.currentValue g,
                  status := true } }
  onEndOfInstant Cont.kvEndHook st3

/-- `VSignalRuntimeRef::await` (value_signal.rs lines 77-81): push the
continuation onto `waiting_await`; no runtime interaction, no failure. -/
def vAwaitReg (c : Cont) (st : RState) : RState :=
  { st with vsig := { st.vsig with waitingAwait := c :: st.vsig.waitingAwait } }

/-- The `while let Some(c) = sig.waiting_await.pop()` loop of the value
end-of-instant hook: each waiter is scheduled onto `current` (the next
instant's bank, since the hook runs after the swap) with the accumulated
`current_value`. -/
def vDrainAwaitLoop : List Cont → RState → RState
  | [], st => st
  | c :: rest, st =>
      vDrainAwaitLoop rest
        (onCurrentInstant (Cont.kcallWith c st.vsig.currentValue)
          { st with vsig := { st.vsig with waitingAwait := rest } })

/-- Body of `VSignalRuntimeRef::emit`'s end-of-instant hook
(value_signal.rs lines 53-63): drain `waiting_await`, then
`current_value = default_value` and `status = false`. -/
def vEndHookUpdate (st : RState) : RState :=
  let st1 := vDrainAwaitLoop st.vsig.waitingAwait st
  { st1 with vsig := { st1.vsig with
      currentValue := st1.vsig.defaultValue, status := false } }

/-- A pending unit of work.  Every `Continuation::call` and
`Process::call` in the source is a tail call, so a synchronous chain of
calls is a stack of tasks processed by `step`. -/
inductive Task where
  | run (p : Proc) (k : Cont) : Task
  | call (k : Cont) (v : RVal) : Task
  | callMutP (p : Proc) (mk : MCont) : Task
  | callMutC (mk : MCont) (p : Proc) (v : RVal) : Task

/-- One source-level call: `run p k` is `p.call(runtime, k)`, `call k v`
is `k.call(runtime, v)`, `callMutP`/`callMutC` are `call_mut` and its
continuation.  Returns the tasks to run next (pushed on top of the task
stack) and the new runtime state. -/
def step : Task → RState → List Task × RState
  -- Value::call (process.rs 135-137): next.call(runtime, self.val)
  | Task.run (Proc.value v) k, st => ([Task.call k v], st)
  -- Map::call (process.rs 180-183)
  | Task.run (Proc.map f p) k, st => ([Task.run p (Cont.kmap f k)], st)
  -- Pause::call (process.rs 201-204): on_next_instant(|run,_| p.call(run,next))
  | Task.run (Proc.pause p) k, st => ([], onNextInstant (Cont.krun p k) st)
  -- Then::call (process.rs 54-58)
  | Task.run (Proc.pthen p q) k, st => ([Task.run p (Cont.kthen q k)], st)
  -- Join::call (process.rs 222-268): allocate the JoinPoint, then push
  -- the two arm closures onto current (p1 first, p2 second).
  | Task.run (Proc.join p q) k, st =>
      let j := st.joins.length
      let st1 := { st with joins := st.joins ++ [⟨none, none, some k⟩] }
      ([], onCurrentInstant (Cont.kjoinSeed false q j)
             (onCurrentInstant (Cont.kjoinSeed true p j) st1))
  -- If::call (process.rs 478-488)
  | Task.run (Proc.ifElse c p q) k, st => ([Task.run c (Cont.kif p q k)], st)
  -- While::call (process.rs 455-461): self.process.call_mut(runtime, mwhile next)
  | Task.run (Proc.whileLoop p) k, st => ([Task.callMutP p (MCont.mwhile k)], st)
  -- countdown as a plain Process: produce its current loop status.
  | Task.run (Proc.countdown n v) k, st =>
      ([Task.call k (if n = 0 then RVal.loopExit v else RVal.loopContinue)], st)
  -- PEmit::call (pure_signal.rs 149-152): emit, then c.call(runtime, ())
  | Task.run Proc.pemit k, st => ([Task.call k RVal.unit], pEmitUpdate st)
  -- PPresent::call via test_present (pure_signal.rs 60-77)
  | Task.run Proc.ppresent k, st =>
      if st.psig.status then
        ([Task.call k (RVal.bool true)], st)
      else
        let st1 := if st.psig.waitingPresent.isEmpty
                   then onEndOfInstant Cont.kpFalseHook st else st
        ([], { st1 with psig := { st1.psig with
                 waitingPresent := k :: st1.psig.waitingPresent } })
  -- VEmit::call (value_signal.rs 206-213): run the value process, then
  -- emit and pass the value through.
  | Task.run (Proc.vemit p) k, st => ([Task.run p (Cont.kvemit k)], st)
  -- VAwait::call (value_signal.rs 184-186): signal.await(c)
  | Task.run Proc.vawait k, st => ([], vAwaitReg k st)
  -- execute_process's result-capturing continuation (process.rs 94-97)
  | Task.call Cont.ret v, st => ([], { st with result := some v })
  -- Continuation::Map::call (continuation.rs 50-52)
  | Task.call (Cont.kmap f k) v, st => ([Task.call k (f v)], st)
  -- Then's intermediate closure: discard the value, run q.
  | Task.call (Cont.kthen q k) _, st => ([Task.run q k], st)
  -- Pause's boxed closure: |run, _| process.call(run, next)
  | Task.call (Cont.krun p k) _, st => ([Task.run p k], st)
  -- Join's arm closure: p.call with the filling continuation.
  | Task.call (Cont.kjoinSeed first p j) _, st =>
      ([Task.run p (Cont.kjoinFill first j)], st)
  -- Join's fill closure: record the value, try_call_next.
  | Task.call (Cont.kjoinFill first j) v, st =>
      match st.joins.get? j with
      | none => ([], st)
      | some cell =>
          let cell1 := if first then { cell with v1 := some v }
                       else { cell with v2 := some v }
          match cell1.v1, cell1.v2, cell1.next with
          | some a, some b, some k =>
              ([Task.call k (RVal.pair a b)],
               { st with joins := st.joins.set j ⟨none, none, none⟩ })
          | _, _, _ => ([], { st with joins := st.joins.set j cell1 })
  -- If's dispatch closure.
  | Task.call (Cont.kif p q k) v, st =>
      match v with
      | RVal.bool true => ([Task.run p k], st)
      | RVal.bool false => ([Task.run q k], st)
      | _ => ([], st)
  -- VEmit's closure: sig.emit(runtime, v); c.call(runtime, v)
  | Task.call (Cont.kvemit k) v, st => ([Task.call k v], vEmitUpdate v st)
  -- Scheduled |runtime, ()| c.call_box(runtime, w)
  | Task.call (Cont.kcallWith k w) _, st => ([Task.call k w], st)
  -- Pure emit's end hook (pure_signal.rs 43-46): status = false.
  | Task.call Cont.kpEndReset _, st =>
      ([], { st with psig := { st.psig with status := false } })
  -- test_present's end hook (pure_signal.rs 68-73): pop each waiter and
  -- call it with false, re-reading the cell between calls.
  | Task.call Cont.kpFalseHook _, st =>
      match st.psig.waitingPresent with
      | [] => ([], st)
      | c :: rest =>
          ([Task.call c (RVal.bool false), Task.call Cont.kpFalseHook RVal.unit],
           { st with psig := { st.psig with waitingPresent := rest } })
  -- Value emit's end hook (value_signal.rs 53-63).
  | Task.call Cont.kvEndHook _, st => ([], vEndHookUpdate st)
  -- User continuations registering another continuation (tests.rs 20-21).
  | Task.call (Cont.kregCurrent k) _, st => ([], onCurrentInstant k st)
  | Task.call (Cont.kregNext k) _, st => ([], onNextInstant k st)
  -- call_mut of the stateful counter process: Continue n times, Exit v.
  | Task.callMutP (Proc.countdown n v) mk, st =>
      match n with
      | 0 => ([Task.callMutC mk (Proc.countdown 0 v) (RVal.loopExit v)], st)
      | Nat.succ m => ([Task.callMutC mk (Proc.countdown m v) RVal.loopContinue], st)
  -- call_mut is modelled only for the process shape used by while_loop here.
  | Task.callMutP _ _, st => ([], st)
  -- While::call's closure (process.rs 456-461): on Continue restart the
  -- loop with the fresh process, on Exit(v) call next with v.
  | Task.callMutC (MCont.mwhile k) p v, st =>
      match v with
      | RVal.loopContinue => ([Task.run (Proc.whileLoop p) k], st)
      | RVal.loopExit w => ([Task.call k w], st)
      | _ => ([], st)

/-- The trampoline running a stack of tasks to completion.  One unit of
fuel per source-level call; `none` when the fuel runs out. -/
def runTasks : Nat → List Task → RState → Option RState
  | _, [], st => some st
  | 0, _ :: _, _ => none
  | Nat.succ f, t :: ts, st => runTasks f ((step t st).1 ++ ts) (step t st).2

/-- Phase A of `SequentialRuntime::instant` (lines 35-37):
`while let Some(cont) = self.current_instant.pop() { cont.call_box(self, ()) }`. -/
def drainCurrent : Nat → RState → Option RState
  | 0, st => match st.currentInstant with
      | [] => some st
      | _ :: _ => none
  | Nat.succ f, st =>
      match st.currentInstant with
      | [] => some st
      | c :: rest =>
          match runTasks f [Task.call c RVal.unit] { st with currentInstant := rest } with
          | none => none
          | some st' => drainCurrent f st'

/-- Phase B of `SequentialRuntime::instant` (lines 40-42): drain
`next_end_instant` (the pre-swap `end_instant`). -/
def drainEnd : Nat → RState → Option RState
  | 0, st => match st.nextEndInstant with
      | [] => some st
      | _ :: _ => none
  | Nat.succ f, st =>
      match st.nextEndInstant with
      | [] => some st
      | c :: rest =>
          match runTasks f [Task.call c RVal.unit] { st with nextEndInstant := rest } with
          | none => none
          | some st' => drainEnd f st'

/-- The two `std::mem::swap`s of `instant` (lines 38-39). -/
def swapPhase (st : RState) : RState :=
  { st with currentInstant := st.nextCurrentInstant,
            nextCurrentInstant := st.currentInstant,
            endInstant := st.nextEndInstant,
            nextEndInstant := st.endInstant }

/-- The return value of `instant` (lines 44-46): true iff `current_instant`,
`end_instant` or `next_end_instant` is non-empty.  `next_current_instant`
is not inspected. -/
def instantFlag (st : RState) : Bool :=
  !st.currentInstant.isEmpty || !st.endInstant.isEmpty || !st.nextEndInstant.isEmpty

/-- `SequentialRuntime::instant` (lines 34-47). -/
def instant (f : Nat) (st : RState) : Option (RState × Bool) :=
  match drainCurrent f st with
  | none => none
  | some st1 =>
      match drainEnd f (swapPhase st1) with
      | none => none
      | some st2 => some (st2, instantFlag st2)

/-- `SequentialRuntime::execute` (lines 30-32): `while self.instant() {}`.
Also counts how many times `instant` ran. -/
def executeAux : Nat → RState → Option (RState × Nat)
  | 0, _ => none
  | Nat.succ f, st =>
      match instant f st with
      | none => none
      | some (st1, b) =>
          if b then
            match executeAux f st1 with
            | none => none
            | some (st2, n) => some (st2, n + 1)
          else some (st1, 1)

/-- A fresh runtime with one pure signal (`PureSignal::new`) and one value
signal (`ValueSignal::new(default_value, gather)`), empty queues. -/
def initState (g : RVal → RVal → RVal) (d : RVal) : RState :=
  { currentInstant := [], endInstant := [],
    nextCurrentInstant := [], nextEndInstant := [],
    psig := { callbacks := [], waitingPresent := [], status := false },
    vsig := { callbacks := [], waitingPresent := [], waitingAwait := [],
              status := false, gather := g, defaultValue := d, currentValue := d },
    joins := [], result := none }

/-- `execute_process` (process.rs 89-107): seed the runtime with
`|run, _| p.call(run, capture)` and run `execute`; also returns the
number of instants. -/
def executeProcess (f : Nat) (g : RVal → RVal → RVal) (d : RVal) (p : Proc) :
    Option (RState × Nat) :=
  executeAux f (onCurrentInstant (Cont.krun p Cont.ret) (initState g d))

/-- The observable outcome of `execute_process`: the captured result (the
Rust code panics when it is `none`) and the number of instants. -/
def execResult (f : Nat) (g : RVal → RVal → RVal) (d : RVal) (p : Proc) :
    Option (Option RVal × Nat) :=
  (executeProcess f g d p).map (fun r => (r.1.result, r.2))

/-- The gather function `|x, y| x + y` of tests.rs on embedded naturals. -/
def natAdd (a b : RVal) : RVal :=
  match a, b with
  | RVal.nat x, RVal.nat y => RVal.nat (x + y)
  | _, _ => RVal.unit

/-- The map `|x| x + 1` of spec scenario S1 on embedded naturals. -/
def natSucc : RVal → RVal
  | RVal.nat n => RVal.nat (n + 1)
  | y => y

/-- A chain of `m` pure-signal emits sequenced by `then`. -/
def pemits : Nat → Proc
  | 0 => Proc.value RVal.unit
  | Nat.succ m => Proc.pthen Proc.pemit (pemits m)

/-- A chain of value-signal emits of the given values, sequenced by `then`. -/
def vemits : List RVal → Proc
  | [] => Proc.value RVal.unit
  | v :: l => Proc.pthen (Proc.vemit (Proc.value v)) (vemits l)

/-- The effect of `m` successive pure-signal `emit` calls within phase A. -/
def pApplyEmits : Nat → RState → RState
  | 0, st => st
  | Nat.succ m, st => pApplyEmits m (pEmitUpdate st)

/-- The effect of successive value-signal `emit(v)` calls within phase A,
in list order. -/
def vApplyEmits (l : List RVal) (st : RState) : RState :=
  l.foldl (fun s v => vEmitUpdate v s) st

/-- The effect of running the value end-of-instant hook `n` times. -/
def vApplyEnd : Nat → RState → RState
  | 0, st => st
  | Nat.succ n, st => vApplyEnd n (vEndHookUpdate st)

/-- `m` emits, then in parallel `n` more emits and a `present()` test of
the same pure signal, all initiated in phase A of the first instant:
`pemits m; join(pemits n, present())`. -/
def presentProg (m n : Nat) : Proc :=
  Proc.pthen (pemits m) (Proc.join (pemits n) Proc.ppresent)

/-- Emit the values of `l`, then `await()` the value signal, all within
the first instant. -/
def emitsAwaitProg (l : List RVal) : Proc :=
  Proc.pthen (vemits l) Proc.vawait

/-- Spec scenario S3 (tests.rs line 212):
`join(S.emit(value(1)).then(S.emit(value(5))), S.await())`. -/
def s3Prog : Proc :=
  Proc.join
    (Proc.pthen (Proc.vemit (Proc.value (RVal.nat 1)))
                (Proc.vemit (Proc.value (RVal.nat 5))))
    Proc.vawait

/-- `if_else(S.present(), value(0), value(1).pause())`: with no emitter,
the else branch runs during phase B and its `pause` registers a
continuation via `on_next_instant` from within phase B. -/
def dropProg : Proc :=
  Proc.ifElse Proc.ppresent (Proc.value (RVal.nat 0)) (Proc.pause (Proc.value (RVal.nat 1)))

/-- `if_else(S.present(), value(()), S.emit())`: with no other emitter the
else branch emits the pure signal from within phase B. -/
def phaseBEmitProg : Proc :=
  Proc.ifElse Proc.ppresent (Proc.value RVal.unit) Proc.pemit

/-- Two `await()`s and one `emit(value(3))` on the same value signal in
the same instant. -/
def twoAwaitProg : Proc :=
  Proc.join Proc.vawait (Proc.join Proc.vawait (Proc.vemit (Proc.value (RVal.nat 3))))

/-- The seeded runtime `execute_process` starts from. -/
def seedState (g : RVal → RVal → RVal) (d : RVal) (p : Proc) : RState :=
  onCurrentInstant (Cont.krun p Cont.ret) (initState g d)

/-- `UCSignalRuntime` (unique_consumer_signal.rs): at most one pending
`await` continuation (`waiting_await: Option<Box<Continuation<V>>>`). -/
structure UCCell where
  callbacks : List Cont
  waitingPresent : List Cont
  waitingAwait : Option Cont
  status : Bool
  currentValue : RVal

/-- `UCSignalRuntimeRef::await` (unique_consumer_signal.rs lines 81-88):
`if let Some(_) = sig.waiting_await { unreachable!(); }` — the fatal
contract violation is modelled as `none`; otherwise the continuation is
stored. -/
def ucAwait (c : Cont) (sig : UCCell) : Option UCCell :=
  match sig.waitingAwait with
  | some _ => none
  | none => some { sig with waitingAwait := some c }

/-- Big-step execution of a stack of pending tail calls: `step` until the
stack is empty. -/
inductive Steps : List Task → RState → RState → Prop where
  | nil (st : RState) : Steps [] st st
  | cons (t : Task) (ts : List Task) (st st' : RState)
      (h : Steps ((step t st).1 ++ ts) (step t st).2 st') :
      Steps (t :: ts) st st'

/-- Big-step phase A: pop `current_instant` and run until it is empty. -/
inductive DrainC : RState → RState → Prop where
  | nil (st : RState) (h : st.currentInstant = []) : DrainC st st
  | cons (st st₂ st₃ : RState) (c : Cont) (rest : List Cont)
      (hq : st.currentInstant = c :: rest)
      (hs : Steps [Task.call c RVal.unit] { st with currentInstant := rest } st₂)
      (hd : DrainC st₂ st₃) : DrainC st st₃

/-- Big-step phase B: pop `next_end_instant` and run until it is empty. -/
inductive DrainE : RState → RState → Prop where
  | nil (st : RState) (h : st.nextEndInstant = []) : DrainE st st
  | cons (st st₂ st₃ : RState) (c : Cont) (rest : List Cont)
      (hq : st.nextEndInstant = c :: rest)
      (hs : Steps [Task.call c RVal.unit] { st with nextEndInstant := rest } st₂)
      (hd : DrainE st₂ st₃) : DrainE st st₃

/-- Big-step `instant`: phase A, the two queue swaps, phase B. -/
inductive InstantR : RState → RState → Prop where
  | mk (st st₁ st₂ : RState) (ha : DrainC st st₁)
      (hb : DrainE (swapPhase st₁) st₂) : InstantR st st₂

/-- Big-step `execute`: iterate `instant` while it returns `true`,
counting the iterations. -/
inductive ExecR : RState → RState → Nat → Prop where
  | last (st st' : RState) (h : InstantR st st') (hf : instantFlag st' = false) :
      ExecR st st' 1
  | more (st st₁ st₂ : RState) (n : Nat) (h : InstantR st st₁)
      (hf : instantFlag st₁ = true) (hrest : ExecR st₁ st₂ n) :
      ExecR st st₂ (n + 1)

/-! Fuel monotonicity: success of the fuelled interpreter is stable under
adding fuel, so `∃ f, … = some r` means "the execution terminates with
result `r`". -/

theorem runTasks_mono : ∀ f ts st r, runTasks f ts st = some r →
    runTasks (f + 1) ts st = some r := by
  intro f
  induction f with
  | zero =>
      intro ts st r h
      cases ts with
      | nil => simpa [runTasks] using h
      | cons t ts => simp [runTasks] at h
  | succ f ih =>
      intro ts st r h
      cases ts with
      | nil => simpa [runTasks] using h
      | cons t ts =>
          rw [runTasks] at h
          rw [runTasks]
          exact ih _ _ _ h

theorem runTasks_mono_le {f f' : Nat} (hle : f ≤ f') {ts st r}
    (h : runTasks f ts st = some r) : runTasks f' ts st = some r := by
  induction hle with
  | refl => exact h
  | step _ ih => exact runTasks_mono _ _ _ _ ih

theorem drainCurrent_nil (f : Nat) {st : RState} (h : st.currentInstant = []) :
    drainCurrent f st = some st := by
  cases f <;> simp only [drainCurrent, h]

theorem drainCurrent_cons (f : Nat) {st : RState} {c : Cont} {rest : List Cont}
    (h : st.currentInstant = c :: rest) {st' : RState}
    (hr : runTasks f [Task.call c RVal.unit] { st with currentInstant := rest } = some st') :
    drainCurrent (f + 1) st = drainCurrent f st' := by
  simp only [drainCurrent, h, hr]

theorem drainEnd_nil (f : Nat) {st : RState} (h : st.nextEndInstant = []) :
    drainEnd f st = some st := by
  cases f <;> simp only [drainEnd, h]

theorem drainEnd_cons (f : Nat) {st : RState} {c : Cont} {rest : List Cont}
    (h : st.nextEndInstant = c :: rest) {st' : RState}
    (hr : runTasks f [Task.call c RVal.unit] { st with nextEndInstant := rest } = some st') :
    drainEnd (f + 1) st = drainEnd f st' := by
  simp only [drainEnd, h, hr]

theorem drainCurrent_mono : ∀ f st r, drainCurrent f st = some r →
    drainCurrent (f + 1) st = some r := by
  intro f
  induction f with
  | zero =>
      intro st r h
      cases hq : st.currentInstant with
      | nil =>
          rw [drainCurrent_nil 0 hq] at h
          rw [drainCurrent_nil 1 hq]
          exact h
      | cons c rest =>
          simp only [drainCurrent, hq] at h
          exact Option.noConfusion h
  | succ f ih =>
      intro st r h
      cases hq : st.currentInstant with
      | nil =>
          rw [drainCurrent_nil (f + 1) hq] at h
          rw [drainCurrent_nil (f + 2) hq]
          exact h
      | cons c rest =>
          simp only [drainCurrent, hq] at h
          cases hr : runTasks f [Task.call c RVal.unit] { st with currentInstant := rest } with
          | none =>
              simp only [hr] at h
              exact Option.noConfusion h
          | some st' =>
              simp only [hr] at h
              rw [drainCurrent_cons (f + 1) hq (runTasks_mono _ _ _ _ hr)]
              exact ih _ _ h

theorem drainCurrent_mono_le {f f' : Nat} (hle : f ≤ f') {st r}
    (h : drainCurrent f st = some r) : drainCurrent f' st = some r := by
  induction hle with
  | refl => exact h
  | step _ ih => exact drainCurrent_mono _ _ _ ih

theorem drainEnd_mono : ∀ f st r, drainEnd f st = some r →
    drainEnd (f + 1) st = some r := by
  intro f
  induction f with
  | zero =>
      intro st r h
      cases hq : st.nextEndInstant with
      | nil =>
          rw [drainEnd_nil 0 hq] at h
          rw [drainEnd_nil 1 hq]
          exact h
      | cons c rest =>
          simp only [drainEnd, hq] at h
          exact Option.noConfusion h
  | succ f ih =>
      intro st r h
      cases hq : st.nextEndInstant with
      | nil =>
          rw [drainEnd_nil (f + 1) hq] at h
          rw [drainEnd_nil (f + 2) hq]
          exact h
      | cons c rest =>
          simp only [drainEnd, hq] at h
          cases hr : runTasks f [Task.call c RVal.unit] { st with nextEndInstant := rest } with
          | none =>
              simp only [hr] at h
              exact Option.noConfusion h
          | some st' =>
              simp only [hr] at h
              rw [drainEnd_cons (f + 1) hq (runTasks_mono _ _ _ _ hr)]
              exact ih _ _ h

theorem drainEnd_mono_le {f f' : Nat} (hle : f ≤ f') {st r}
    (h : drainEnd f st = some r) : drainEnd f' st = some r := by
  induction hle with
  | refl => exact h
  | step _ ih => exact drainEnd_mono _ _ _ ih

theorem instant_eq {f : Nat} {st st1 st2 : RState}
    (h1 : drainCurrent f st = some st1)
    (h2 : drainEnd f (swapPhase st1) = some st2) :
    instant f st = some (st2, instantFlag st2) := by
  simp only [instant, h1, h2]

theorem instant_mono_le {f f' : Nat} (hle : f ≤ f') {st r}
    (h : instant f st = some r) : instant f' st = some r := by
  unfold instant at h
  cases h1 : drainCurrent f st with
  | none =>
      simp only [h1] at h
      exact Option.noConfusion h
  | some st1 =>
      simp only [h1] at h
      cases h2 : drainEnd f (swapPhase st1) with
      | none =>
          simp only [h2] at h
          exact Option.noConfusion h
      | some st2 =>
          simp only [h2] at h
          rw [← h]
          exact instant_eq (drainCurrent_mono_le hle h1) (drainEnd_mono_le hle h2)

theorem executeAux_stop {f : Nat} {st st1 : RState}
    (h1 : instant f st = some (st1, false)) :
    executeAux (f + 1) st = some (st1, 1) := by
  simp [executeAux, h1]

theorem executeAux_go {f : Nat} {st st1 st2 : RState} {n : Nat}
    (h1 : instant f st = some (st1, true))
    (h2 : executeAux f st1 = some (st2, n)) :
    executeAux (f + 1) st = some (st2, n + 1) := by
  simp [executeAux, h1, h2]

theorem executeAux_mono : ∀ f st r, executeAux f st = some r →
    executeAux (f + 1) st = some r := by
  intro f
  induction f with
  | zero =>
      intro st r h
      simp only [executeAux] at h
      exact Option.noConfusion h
  | succ f ih =>
      intro st r h
      simp only [executeAux] at h
      cases h1 : instant f st with
      | none =>
          simp only [h1] at h
          exact Option.noConfusion h
      | some p =>
          simp only [h1] at h
          cases p with
          | mk st1 b =>
              cases b with
              | false =>
                  rw [if_neg Bool.false_ne_true] at h
                  rw [executeAux_stop (instant_mono_le (Nat.le_succ f) h1)]
                  exact h
              | true =>
                  rw [if_pos rfl] at h
                  cases h2 : executeAux f st1 with
                  | none =>
                      simp only [h2] at h
                      exact Option.noConfusion h
                  | some q =>
                      obtain ⟨st2, n⟩ := q
                      simp only [h2] at h
                      rw [executeAux_go (instant_mono_le (Nat.le_succ f) h1) (ih _ _ h2)]
                      exact h

theorem executeAux_mono_le {f f' : Nat} (hle : f ≤ f') {st r}
    (h : executeAux f st = some r) : executeAux f' st = some r := by
  induction hle with
  | refl => exact h
  | step _ ih => exact executeAux_mono _ _ _ ih

/-! Single-step helpers for building `Steps` derivations. -/

theorem steps_zero {t : Task} {ts : List Task} {st st₂ st' : RState}
    (h : step t st = ([], st₂)) (hs : Steps ts st₂ st') : Steps (t :: ts) st st' := by
  refine Steps.cons t ts st st' ?_
  rw [h]
  exact hs

theorem steps_one {t t₁ : Task} {ts : List Task} {st st₂ st' : RState}
    (h : step t st = ([t₁], st₂)) (hs : Steps (t₁ :: ts) st₂ st') :
    Steps (t :: ts) st st' := by
  refine Steps.cons t ts st st' ?_
  rw [h]
  exact hs

theorem steps_two {t t₁ t₂ : Task} {ts : List Task} {st st₂ st' : RState}
    (h : step t st = ([t₁, t₂], st₂)) (hs : Steps (t₁ :: t₂ :: ts) st₂ st') :
    Steps (t :: ts) st st' := by
  refine Steps.cons t ts st st' ?_
  rw [h]
  exact hs

/-! Bridges from the big-step relations to the fuelled interpreter. -/

theorem steps_to_fuel {ts st st'} (h : Steps ts st st') :
    ∃ f, runTasks f ts st = some st' := by
  induction h with
  | nil st => exact ⟨0, rfl⟩
  | cons t ts st st' _ ih =>
      obtain ⟨f, hf⟩ := ih
      exact ⟨f + 1, by rw [runTasks]; exact hf⟩

theorem drainC_to_fuel {st st'} (h : DrainC st st') :
    ∃ f, drainCurrent f st = some st' := by
  induction h with
  | nil st h => exact ⟨0, drainCurrent_nil 0 h⟩
  | cons st st₂ st₃ c rest hq hs _ ih =>
      obtain ⟨f₁, h₁⟩ := steps_to_fuel hs
      obtain ⟨f₂, h₂⟩ := ih
      refine ⟨max f₁ f₂ + 1, ?_⟩
      rw [drainCurrent_cons (max f₁ f₂) hq
            (runTasks_mono_le (Nat.le_max_left f₁ f₂) h₁)]
      exact drainCurrent_mono_le (Nat.le_max_right f₁ f₂) h₂

theorem drainE_to_fuel {st st'} (h : DrainE st st') :
    ∃ f, drainEnd f st = some st' := by
  induction h with
  | nil st h => exact ⟨0, drainEnd_nil 0 h⟩
  | cons st st₂ st₃ c rest hq hs _ ih =>
      obtain ⟨f₁, h₁⟩ := steps_to_fuel hs
      obtain ⟨f₂, h₂⟩ := ih
      refine ⟨max f₁ f₂ + 1, ?_⟩
      rw [drainEnd_cons (max f₁ f₂) hq
            (runTasks_mono_le (Nat.le_max_left f₁ f₂) h₁)]
      exact drainEnd_mono_le (Nat.le_max_right f₁ f₂) h₂

theorem instantR_to_fuel {st st'} (h : InstantR st st') :
    ∃ f, instant f st = some (st', instantFlag st') := by
  cases h with
  | mk st₁ st₂ ha hb =>
      obtain ⟨f₁, h₁⟩ := drainC_to_fuel ha
      obtain ⟨f₂, h₂⟩ := drainE_to_fuel hb
      exact ⟨max f₁ f₂,
        instant_eq (drainCurrent_mono_le (Nat.le_max_left f₁ f₂) h₁)
          (drainEnd_mono_le (Nat.le_max_right f₁ f₂) h₂)⟩

theorem execR_to_fuel {st st' n} (h : ExecR st st' n) :
    ∃ f, executeAux f st = some (st', n) := by
  induction h with
  | last st st' h hf =>
      obtain ⟨f, hf'⟩ := instantR_to_fuel h
      rw [hf] at hf'
      exact ⟨f + 1, executeAux_stop hf'⟩
  | more st st₁ st₂ n h hf _ ih =>
      obtain ⟨f₁, h₁⟩ := instantR_to_fuel h
      obtain ⟨f₂, h₂⟩ := ih
      rw [hf] at h₁
      exact ⟨max f₁ f₂ + 1,
        executeAux_go (instant_mono_le (Nat.le_max_left f₁ f₂) h₁)
          (executeAux_mono_le (Nat.le_max_right f₁ f₂) h₂)⟩

/-! Symbolic execution lemmas for emit chains and the end-of-instant
hook queues. -/

/-- `executeProcess` seeds exactly the state `seedState` describes. -/
theorem executeProcess_eq (f : Nat) (g : RVal → RVal → RVal) (d : RVal) (p : Proc) :
    executeProcess f g d p = executeAux f (seedState g d p) := rfl

theorem replicate_append_cons (m : Nat) (a : Cont) (e : List Cont) :
    List.replicate m a ++ a :: e = List.replicate (m + 1) a ++ e := by
  induction m with
  | zero => rfl
  | succ m ih => simpa [List.replicate_succ] using ih

/-- Running the `then`-chain of `m` pure emits is the synchronous state
update `pApplyEmits m`, after which the continuation receives `()`. -/
theorem pemits_steps : ∀ (m : Nat) (k : Cont) (ts : List Task) (st st' : RState),
    Steps (Task.call k RVal.unit :: ts) (pApplyEmits m st) st' →
    Steps (Task.run (pemits m) k :: ts) st st' := by
  intro m
  induction m with
  | zero =>
      intro k ts st st' h
      exact steps_one rfl h
  | succ m ih =>
      intro k ts st st' h
      exact steps_one rfl (steps_one rfl (steps_one rfl (ih k ts (pEmitUpdate st) st' h)))

/-- Running the `then`-chain of value emits is the synchronous state
update `vApplyEmits l`, after which the continuation receives `()`. -/
theorem vemits_steps : ∀ (l : List RVal) (k : Cont) (ts : List Task) (st st' : RState),
    Steps (Task.call k RVal.unit :: ts) (vApplyEmits l st) st' →
    Steps (Task.run (vemits l) k :: ts) st st' := by
  intro l
  induction l with
  | nil =>
      intro k ts st st' h
      exact steps_one rfl h
  | cons v l ih =>
      intro k ts st st' h
      exact steps_one rfl (steps_one rfl (steps_one rfl (steps_one rfl
        (steps_one rfl (ih k ts (vEmitUpdate v st) st' h)))))

/-- A pure emit on a cell with no callbacks and no `present` waiters just
sets the status and registers the reset hook. -/
theorem pEmitUpdate_quiet {st : RState}
    (hc : st.psig.callbacks = []) (hw : st.psig.waitingPresent = []) :
    pEmitUpdate st =
      { st with psig := { callbacks := [], waitingPresent := [], status := true },
                endInstant := Cont.kpEndReset :: st.endInstant } := by
  obtain ⟨cur, en, nc, ne, ⟨pcb, pwp, pst⟩, vs, js, res⟩ := st
  simp only at hc hw
  subst hc hw
  simp [pEmitUpdate, flushOnto, flushTrueOnto, onEndOfInstant]

/-- A pure emit on a cell with no callbacks and exactly one `present`
waiter also schedules the waiter with `true` onto `current`. -/
theorem pEmitUpdate_one_waiter {st : RState} {w : Cont}
    (hc : st.psig.callbacks = []) (hw : st.psig.waitingPresent = [w]) :
    pEmitUpdate st =
      { st with currentInstant := Cont.kcallWith w (RVal.bool true) :: st.currentInstant,
                psig := { callbacks := [], waitingPresent := [], status := true },
                endInstant := Cont.kpEndReset :: st.endInstant } := by
  obtain ⟨cur, en, nc, ne, ⟨pcb, pwp, pst⟩, vs, js, res⟩ := st
  simp only at hc hw
  subst hc hw
  simp [pEmitUpdate, flushOnto, flushTrueOnto, onCurrentInstant, onEndOfInstant]

/-- `m` pure emits on a quiet cell: status becomes (or stays, for
`m = 0`) the disjunction, and `m` reset hooks pile up on `end_instant`. -/
theorem pApplyEmits_spec : ∀ (m : Nat) (st : RState),
    st.psig.callbacks = [] → st.psig.waitingPresent = [] →
    pApplyEmits m st =
      { st with psig := { callbacks := [], waitingPresent := [],
                          status := (st.psig.status || (m != 0)) },
                endInstant := List.replicate m Cont.kpEndReset ++ st.endInstant } := by
  intro m
  induction m with
  | zero =>
      intro st hc hw
      obtain ⟨cur, en, nc, ne, ⟨pcb, pwp, pst⟩, vs, js, res⟩ := st
      simp only at hc hw
      subst hc hw
      simp [pApplyEmits]
  | succ m ih =>
      intro st hc hw
      have hstep : pApplyEmits (m + 1) st = pApplyEmits m (pEmitUpdate st) := rfl
      rw [hstep, pEmitUpdate_quiet hc hw, ih _ rfl rfl]
      obtain ⟨cur, en, nc, ne, ⟨pcb, pwp, pst⟩, vs, js, res⟩ := st
      simp [replicate_append_cons]

/-- A value emit on a cell with no callbacks and no `present` waiters:
gather the value, set the status, register the value end hook. -/
theorem vEmitUpdate_quiet {st : RState} (g : RVal)
    (hc : st.vsig.callbacks = []) (hw : st.vsig.waitingPresent = []) :
    vEmitUpdate g st =
      { st with
        vsig := { st.vsig with
                  callbacks := [], waitingPresent := [],
                  currentValue := st.vsig.gather st.vsig.currentValue g,
                  status := true },
        endInstant := Cont.kvEndHook :: st.endInstant } := by
  obtain ⟨cur, en, nc, ne, ps, ⟨vcb, vwp, vwa, vst, vg, vd, vcv⟩, js, res⟩ := st
  simp only at hc hw
  subst hc hw
  simp [vEmitUpdate, flushOnto, flushTrueOnto, onEndOfInstant]

/-- A chain of value emits on a quiet cell folds the emitted values into
`current_value` with `gather`, in emission order, and piles up one value
end hook per emit. -/
theorem vApplyEmits_spec : ∀ (l : List RVal) (st : RState),
    st.vsig.callbacks = [] → st.vsig.waitingPresent = [] →
    vApplyEmits l st =
      { st with
        vsig := { st.vsig with
                  callbacks := [], waitingPresent := [],
                  currentValue := l.foldl st.vsig.gather st.vsig.currentValue,
                  status := (st.vsig.status || (l.length != 0)) },
        endInstant := List.replicate l.length Cont.kvEndHook ++ st.endInstant } := by
  intro l
  induction l with
  | nil =>
      intro st hc hw
      obtain ⟨cur, en, nc, ne, ps, ⟨vcb, vwp, vwa, vst, vg, vd, vcv⟩, js, res⟩ := st
      simp only at hc hw
      subst hc hw
      simp [vApplyEmits]
  | cons v l ih =>
      intro st hc hw
      have hstep : vApplyEmits (v :: l) st = vApplyEmits l (vEmitUpdate v st) := rfl
      rw [hstep, vEmitUpdate_quiet v hc hw, ih _ rfl rfl]
      obtain ⟨cur, en, nc, ne, ps, ⟨vcb, vwp, vwa, vst, vg, vd, vcv⟩, js, res⟩ := st
      simp [replicate_append_cons]

/-- The value end hook's drain loop schedules every pending `await`
continuation onto `current` with the same `current_value`. -/
theorem vDrainAwaitLoop_spec : ∀ (l : List Cont) (st : RState),
    st.vsig.waitingAwait = l →
    vDrainAwaitLoop l st =
      { st with
        currentInstant :=
          (l.map (fun c => Cont.kcallWith c st.vsig.currentValue)).reverse ++
            st.currentInstant,
        vsig := { st.vsig with waitingAwait := [] } } := by
  intro l
  induction l with
  | nil =>
      intro st h
      obtain ⟨cur, en, nc, ne, ps, ⟨vcb, vwp, vwa, vst, vg, vd, vcv⟩, js, res⟩ := st
      simp only at h
      subst h
      simp [vDrainAwaitLoop]
  | cons c l ih =>
      intro st h
      rw [vDrainAwaitLoop, ih _ rfl]
      obtain ⟨cur, en, nc, ne, ps, ⟨vcb, vwp, vwa, vst, vg, vd, vcv⟩, js, res⟩ := st
      simp only at h
      subst h
      simp [onCurrentInstant, List.append_assoc]

/-- The value end hook (registered by `emit`, run during phase B):
every pending `await` is delivered the same accumulated value onto the
next instant's current queue, then the accumulator is reset to the
default and the status to absent. -/
theorem vEndHookUpdate_spec (st : RState) :
    vEndHookUpdate st =
      { st with
        currentInstant :=
          (st.vsig.waitingAwait.map
            (fun c => Cont.kcallWith c st.vsig.currentValue)).reverse ++
            st.currentInstant,
        vsig := { st.vsig with
                  waitingAwait := [],
                  currentValue := st.vsig.defaultValue, status := false } } := by
  rw [vEndHookUpdate, vDrainAwaitLoop_spec st.vsig.waitingAwait st rfl]

/-- The value end hook is the identity once the cell is already reset. -/
theorem vEndHookUpdate_fixed {st : RState}
    (ha : st.vsig.waitingAwait = []) (hv : st.vsig.currentValue = st.vsig.defaultValue)
    (hs : st.vsig.status = false) : vEndHookUpdate st = st := by
  rw [vEndHookUpdate_spec]
  obtain ⟨cur, en, nc, ne, ps, ⟨vcb, vwp, vwa, vst, vg, vd, vcv⟩, js, res⟩ := st
  simp only at ha hv hs
  subst ha hv hs
  simp

/-- Iterated value end hooks on an already-reset cell do nothing. -/
theorem vApplyEnd_fixed : ∀ (n : Nat) {st : RState},
    st.vsig.waitingAwait = [] → st.vsig.currentValue = st.vsig.defaultValue →
    st.vsig.status = false → vApplyEnd n st = st := by
  intro n
  induction n with
  | zero => intro st _ _ _; rfl
  | succ n ih =>
      intro st ha hv hs
      have h1 : vApplyEnd (n + 1) st = vApplyEnd n (vEndHookUpdate st) := rfl
      rw [h1, vEndHookUpdate_fixed ha hv hs, ih ha hv hs]

/-- Draining `n + 1` pure reset hooks from the phase-B queue just resets
the pure signal status. -/
theorem drainE_resets : ∀ (n : Nat) (rest : List Cont) (st st' : RState),
    st.nextEndInstant = List.replicate (n + 1) Cont.kpEndReset ++ rest →
    DrainE { st with
             nextEndInstant := rest,
             psig := { st.psig with status := false } } st' →
    DrainE st st' := by
  intro n
  induction n with
  | zero =>
      intro rest st st' hq h
      refine DrainE.cons st _ st' Cont.kpEndReset rest (by rw [hq]; rfl) ?_ h
      exact steps_zero rfl (Steps.nil _)
  | succ n ih =>
      intro rest st st' hq h
      refine DrainE.cons st _ st' Cont.kpEndReset
        (List.replicate (n + 1) Cont.kpEndReset ++ rest)
        (by rw [hq]; rfl) (steps_zero rfl (Steps.nil _)) ?_
      exact ih rest _ st' rfl h

/-- Draining `n + 1` value end hooks from the phase-B queue applies
`vEndHookUpdate` that many times. -/
theorem drainE_vhooks : ∀ (n : Nat) (rest : List Cont) (st st' : RState),
    st.nextEndInstant = List.replicate (n + 1) Cont.kvEndHook ++ rest →
    DrainE (vApplyEnd (n + 1) { st with nextEndInstant := rest }) st' →
    DrainE st st' := by
  intro n
  induction n with
  | zero =>
      intro rest st st' hq h
      refine DrainE.cons st _ st' Cont.kvEndHook rest (by rw [hq]; rfl) ?_ h
      exact steps_zero rfl (Steps.nil _)
  | succ n ih =>
      intro rest st st' hq h
      refine DrainE.cons st _ st' Cont.kvEndHook
        (List.replicate (n + 1) Cont.kvEndHook ++ rest)
        (by rw [hq]; rfl) (steps_zero rfl (Steps.nil _)) ?_
      refine ih rest
        (vEndHookUpdate { st with
          nextEndInstant := List.replicate (n + 1) Cont.kvEndHook ++ rest }) st' ?_ ?_
      · rw [vEndHookUpdate_spec]
      · have hc : vEndHookUpdate { st with
              nextEndInstant := List.replicate (n + 1) Cont.kvEndHook ++ rest } =
            { vEndHookUpdate { st with nextEndInstant := rest } with
              nextEndInstant := List.replicate (n + 1) Cont.kvEndHook ++ rest } := by
          rw [vEndHookUpdate_spec, vEndHookUpdate_spec]
        rw [hc]
        have h2 : { { vEndHookUpdate { st with nextEndInstant := rest } with
              nextEndInstant := List.replicate (n + 1) Cont.kvEndHook ++ rest } with
              nextEndInstant := rest } =
            vEndHookUpdate { st with nextEndInstant := rest } := by
          rw [vEndHookUpdate_spec]
        rw [h2]
        exact h

/-- Folding with an associative-commutative operation is invariant under
permutation of the folded list. -/
theorem foldl_perm {g : RVal → RVal → RVal}
    (hrc : ∀ z x y, g (g z x) y = g (g z y) x) :
    ∀ {l l' : List RVal}, l.Perm l' → ∀ b, l.foldl g b = l'.foldl g b := by
  intro l l' hp
  induction hp with
  | nil => intro b; rfl
  | cons x _ ih => intro b; simp only [List.foldl_cons]; exact ih _
  | swap x y l => intro b; simp only [List.foldl_cons]; rw [hrc]
  | trans _ _ ih₁ ih₂ => intro b; exact (ih₁ b).trans (ih₂ b)

theorem natAdd_assoc : ∀ a b c : RVal, natAdd (natAdd a b) c = natAdd a (natAdd b c) := by
  intro a b c
  cases a <;> cases b <;> cases c <;> simp [natAdd, Nat.add_assoc]

theorem natAdd_comm : ∀ a b : RVal, natAdd a b = natAdd b a := by
  intro a b
  cases a <;> cases b <;> simp [natAdd, Nat.add_comm]

/-- Unrolling `While::call` over the stateful counter process: after `n`
`Continue` restarts (each a fresh `call_mut`), the `Exit v` branch calls
the outer continuation with `v`. -/
theorem while_countdown_steps : ∀ (n : Nat) (v : RVal) (k : Cont) (ts : List Task)
    (st st' : RState),
    Steps (Task.call k v :: ts) st st' →
    Steps (Task.run (Proc.whileLoop (Proc.countdown n v)) k :: ts) st st' := by
  intro n
  induction n with
  | zero =>
      intro v k ts st st' h
      exact steps_one rfl (steps_one rfl (steps_one rfl h))
  | succ n ih =>
      intro v k ts st st' h
      exact steps_one rfl (steps_one rfl (steps_one rfl (ih v k ts st st' h)))

/-! The claims. -/

/-- C4: executing `join(S.emit(value(1)).then(S.emit(value(5))), S.await())`
on the value signal with default `0` and gather `+` (spec scenario S3,
tests.rs line 212).  The code's `VEmit` has `type Value = G` and passes
the emitted value through, so the first component of the pair is `5`
(the value of the second emit), not `()` as the spec, the claim and the
repository's own test assert; the awaited component is `6` and delivery
takes 2 instants. -/
theorem c4_s3_tail_value :
    execResult 60 natAdd (RVal.nat 0) s3Prog =
      some (some (RVal.pair (RVal.nat 5) (RVal.nat 6)), 2) := by decide

/-- C6: `execute(value(v).pause().map(f))` returns `f v` and takes exactly
two iterations of `instant()`, for every value `v` and single-use map
`f` (and any ambient value-signal parameters); in particular
`value(42).pause().map(|x| x+1)` returns `43`. -/
theorem c6_pause_map :
    (∀ (g : RVal → RVal → RVal) (d v : RVal) (f : RVal → RVal),
      execResult 20 g d (Proc.map f (Proc.pause (Proc.value v))) =
        some (some (f v), 2)) ∧
    execResult 20 natAdd (RVal.nat 0)
        (Proc.map natSucc (Proc.pause (Proc.value (RVal.nat 42)))) =
      some (some (RVal.nat 43), 2) := by
  exact ⟨fun g d v f => rfl, by decide⟩

/-- C9: on a unique-consumer signal, `await` with an `await` already
pending hits the `unreachable!()` (modelled as `none`: a fatal abort),
while `await` with none pending succeeds and stores the continuation. -/
theorem c9_unique_consumer_await (c : Cont) (sig : UCCell) :
    (sig.waitingAwait ≠ none → ucAwait c sig = none) ∧
    (sig.waitingAwait = none →
      ucAwait c sig = some { sig with waitingAwait := some c }) := by
  constructor
  · intro h
    cases hw : sig.waitingAwait with
    | none => exact absurd hw h
    | some c' => simp [ucAwait, hw]
  · intro h
    simp [ucAwait, h]

theorem c9_witness :
    (ucAwait Cont.ret
      { callbacks := [], waitingPresent := [], waitingAwait := some Cont.ret,
        status := false, currentValue := RVal.unit } = none) ∧
    (ucAwait Cont.ret
      { callbacks := [], waitingPresent := [], waitingAwait := none,
        status := false, currentValue := RVal.unit } =
      some { callbacks := [], waitingPresent := [], waitingAwait := some Cont.ret,
             status := false, currentValue := RVal.unit }) :=
  ⟨(c9_unique_consumer_await Cont.ret _).1 (by simp),
   (c9_unique_consumer_await Cont.ret _).2 rfl⟩

/-- C10: a plain value signal accepts any number of pending `await`
registrations (`await` is a total push, unlike the unique-consumer
variant), and the end-of-instant hook registered by `emit` delivers the
same accumulated `current_value` to every pending continuation; on the
concrete graph with two `await()`s and one `emit(value(3))` both awaited
values are `3`. -/
theorem c10_multi_await (st : RState) (c : Cont) :
    (vAwaitReg c st =
      { st with vsig := { st.vsig with waitingAwait := c :: st.vsig.waitingAwait } }) ∧
    (vEndHookUpdate st =
      { st with
        currentInstant :=
          (st.vsig.waitingAwait.map
            (fun k => Cont.kcallWith k st.vsig.currentValue)).reverse ++
            st.currentInstant,
        vsig := { st.vsig with
                  waitingAwait := [],
                  currentValue := st.vsig.defaultValue, status := false } }) ∧
    execResult 80 natAdd (RVal.nat 0) twoAwaitProg =
      some (some (RVal.pair (RVal.nat 3) (RVal.pair (RVal.nat 3) (RVal.nat 3))), 2) :=
  ⟨rfl, vEndHookUpdate_spec st, by decide⟩

/-- C7: with an associative and commutative gather, the accumulated value
produced by a sequence of same-instant emits equals the fold of the
emitted values into the default value and is invariant under permutation
of the emission order. -/
theorem c7_gather_order_independent (g : RVal → RVal → RVal) (d : RVal)
    (l l' : List RVal)
    (hassoc : ∀ a b c, g (g a b) c = g a (g b c))
    (hcomm : ∀ a b, g a b = g b a)
    (hperm : l.Perm l') :
    (vApplyEmits l (initState g d)).vsig.currentValue = l.foldl g d ∧
    (vApplyEmits l (initState g d)).vsig.currentValue =
      (vApplyEmits l' (initState g d)).vsig.currentValue := by
  have hrc : ∀ z x y, g (g z x) y = g (g z y) x := by
    intro z x y
    rw [hassoc, hcomm x y, ← hassoc]
  have h1 : ∀ m : List RVal,
      (vApplyEmits m (initState g d)).vsig.currentValue = m.foldl g d := by
    intro m
    rw [vApplyEmits_spec m (initState g d) rfl rfl]
    rfl
  exact ⟨h1 l, by rw [h1 l, h1 l']; exact foldl_perm hrc hperm d⟩

theorem c7_witness :
    (vApplyEmits [RVal.nat 1, RVal.nat 2]
        (initState natAdd (RVal.nat 0))).vsig.currentValue =
      [RVal.nat 1, RVal.nat 2].foldl natAdd (RVal.nat 0) ∧
    (vApplyEmits [RVal.nat 1, RVal.nat 2]
        (initState natAdd (RVal.nat 0))).vsig.currentValue =
      (vApplyEmits [RVal.nat 2, RVal.nat 1]
        (initState natAdd (RVal.nat 0))).vsig.currentValue :=
  c7_gather_order_independent natAdd (RVal.nat 0) _ _ natAdd_assoc natAdd_comm
    (List.Perm.swap (RVal.nat 2) (RVal.nat 1) [])

/-- C1 counterexample: executing
`if_else(S.present(), value(0), value(1).pause())` with `S` never
emitted.  The else branch runs during phase B of instant 1; its
`pause()` registers the result continuation via `on_next_instant`, which
lands in `next_current_instant` — a bank `instant()`'s return value does
not inspect — so `execute()` stops after one instant with the
continuation still pending (length 1) and no result ever captured
(the Rust code panics).  This contradicts the claim that such a
continuation runs in instant T+1 and is never dropped. -/
theorem c1_counterexample :
    (executeProcess 40 natAdd (RVal.nat 0) dropProg).map
      (fun r => (r.1.result, r.1.nextCurrentInstant.length, r.2)) =
      some (none, 1, 1) := by decide

/-- C1 (amended): a continuation registered during phase B via
`on_current_instant` lands in the bank popped by the next `instant()`
call and makes `instant()` return `true`, so it runs in instant T+1 and
is not dropped (third conjunct: it is executed during the second
instant); but a continuation registered during phase B via
`on_next_instant` lands in `next_current_instant`, which the return
value of `instant()` ignores: `instant()` returns `false` and
`execute()` stops with the continuation still pending. -/
theorem c1_phase_b_registration (c : Cont) (g : RVal → RVal → RVal) (d : RVal) :
    ((instant 5 { initState g d with endInstant := [Cont.kregCurrent c] }).map
      (fun r => (r.1.currentInstant, r.2)) = some ([c], true)) ∧
    ((executeAux 10 { initState g d with endInstant := [Cont.kregCurrent Cont.ret] }).map
      (fun r => (r.1.result, r.2)) = some (some RVal.unit, 2)) ∧
    ((instant 5 { initState g d with endInstant := [Cont.kregNext c] }).map
      (fun r => (r.1.nextCurrentInstant, r.1.currentInstant, r.2)) =
      some ([c], [], false)) :=
  ⟨rfl, rfl, rfl⟩

/-- C2 counterexample: executing
`if_else(S.present(), value(()), S.emit())` with `S` never emitted
otherwise.  The `present()` resolves to `false` during phase B of
instant 1 and the else branch emits there, so at the boundary after
phase B of instant 1 the signal's status is `present` (`true`), not
absent as the claim requires of every boundary. -/
theorem c2_counterexample :
    (instant 40 (seedState natAdd (RVal.nat 0) phaseBEmitProg)).map
      (fun r => (r.1.psig.status, r.2)) = some (true, true) := by decide

/-- C8: `while_loop()` over a `ProcessMut` that yields `Continue` on `n`
successive `call_mut` invocations and then `Exit v` re-invokes
`call_mut` after each `Continue` and delivers exactly `v` to the outer
continuation; the whole loop runs synchronously within one instant. -/
theorem c8_while_loop (n : Nat) (v : RVal) (g : RVal → RVal → RVal) (d : RVal) :
    ∃ f, execResult f g d (Proc.whileLoop (Proc.countdown n v)) = some (some v, 1) := by
  have hsteps : Steps [Task.call (Cont.krun (Proc.whileLoop (Proc.countdown n v)) Cont.ret) RVal.unit]
      (initState g d) { initState g d with result := some v } :=
    steps_one rfl (while_countdown_steps n v Cont.ret []
      (initState g d) { initState g d with result := some v }
      (steps_zero rfl (Steps.nil _)))
  have hA : DrainC (seedState g d (Proc.whileLoop (Proc.countdown n v)))
      { initState g d with result := some v } :=
    DrainC.cons _ _ _ _ _ rfl hsteps (DrainC.nil _ rfl)
  have hI : InstantR (seedState g d (Proc.whileLoop (Proc.countdown n v)))
      (swapPhase { initState g d with result := some v }) :=
    InstantR.mk _ _ _ hA (DrainE.nil _ rfl)
  have hE : ExecR (seedState g d (Proc.whileLoop (Proc.countdown n v)))
      (swapPhase { initState g d with result := some v }) 1 :=
    ExecR.last _ _ hI rfl
  obtain ⟨f, hf⟩ := execR_to_fuel hE
  exact ⟨f, by rw [execResult, executeProcess_eq, hf]; rfl⟩

/-- C3 counterexample: executing `S.await()` alone on a value signal.
No emit occurs in instant 1, so no end-of-instant hook exists to resolve
the `await`: `execute()` returns after one instant with the continuation
still parked in `waiting_await` (length 1) and no result (the Rust code
panics).  This contradicts the claim that an `await` initiated in an
instant with no emit is resolved at that instant's end with the default
value. -/
theorem c3_counterexample :
    (executeProcess 30 natAdd (RVal.nat 0) Proc.vawait).map
      (fun r => (r.1.result, r.1.vsig.waitingAwait.length, r.2)) =
      some (none, 1, 1) := by decide

/-- C3 (amended): when at least one emit occurs in instant 1, an `await`
initiated in instant 1 is resolved at that instant's end-of-instant with
the value accumulated during instant 1 (the `gather`-fold of the emitted
values into the default), and its continuation is delivered at the start
of instant 2: the execution takes exactly 2 instants and returns the
accumulated value. -/
theorem c3_await_resolved (g : RVal → RVal → RVal) (d v : RVal) (l : List RVal) :
    ∃ f, execResult f g d (emitsAwaitProg (v :: l)) =
      some (some ((v :: l).foldl g d), 2) := by
  have hA := vApplyEmits_spec (v :: l) (initState g d) rfl rfl
  -- the state at the end of phase A of instant 1
  have hstA : vAwaitReg Cont.ret (vApplyEmits (v :: l) (initState g d)) =
      { currentInstant := [],
        endInstant := List.replicate (l.length + 1) Cont.kvEndHook ++ [],
        nextCurrentInstant := [], nextEndInstant := [],
        psig := { callbacks := [], waitingPresent := [], status := false },
        vsig := { callbacks := [], waitingPresent := [], waitingAwait := [Cont.ret],
                  status := true, gather := g, defaultValue := d,
                  currentValue := List.foldl g d (v :: l) },
        joins := [], result := none } := by
    rw [hA]
    rfl
  have hsteps : Steps
      [Task.call (Cont.krun (emitsAwaitProg (v :: l)) Cont.ret) RVal.unit]
      (initState g d)
      { currentInstant := [],
        endInstant := List.replicate (l.length + 1) Cont.kvEndHook ++ [],
        nextCurrentInstant := [], nextEndInstant := [],
        psig := { callbacks := [], waitingPresent := [], status := false },
        vsig := { callbacks := [], waitingPresent := [], waitingAwait := [Cont.ret],
                  status := true, gather := g, defaultValue := d,
                  currentValue := List.foldl g d (v :: l) },
        joins := [], result := none } := by
    rw [← hstA]
    exact steps_one rfl (steps_one rfl
      (vemits_steps (v :: l) (Cont.kthen Proc.vawait Cont.ret) [] _ _
        (steps_one rfl (steps_zero rfl (Steps.nil _)))))
  have hDC : DrainC (seedState g d (emitsAwaitProg (v :: l)))
      { currentInstant := [],
        endInstant := List.replicate (l.length + 1) Cont.kvEndHook ++ [],
        nextCurrentInstant := [], nextEndInstant := [],
        psig := { callbacks := [], waitingPresent := [], status := false },
        vsig := { callbacks := [], waitingPresent := [], waitingAwait := [Cont.ret],
                  status := true, gather := g, defaultValue := d,
                  currentValue := List.foldl g d (v :: l) },
        joins := [], result := none } :=
    DrainC.cons _ _ _ _ _ rfl hsteps (DrainC.nil _ rfl)
  -- phase B of instant 1: the first value end hook delivers the
  -- accumulated value to the waiting continuation, the remaining hooks
  -- are no-ops on the already-reset cell
  have hC : vApplyEnd (l.length + 1)
      { currentInstant := [], endInstant := [],
        nextCurrentInstant := [], nextEndInstant := [],
        psig := { callbacks := [], waitingPresent := [], status := false },
        vsig := { callbacks := [], waitingPresent := [], waitingAwait := [Cont.ret],
                  status := true, gather := g, defaultValue := d,
                  currentValue := List.foldl g d (v :: l) },
        joins := [], result := none } =
      { currentInstant := [Cont.kcallWith Cont.ret (List.foldl g d (v :: l))],
        endInstant := [], nextCurrentInstant := [], nextEndInstant := [],
        psig := { callbacks := [], waitingPresent := [], status := false },
        vsig := { callbacks := [], waitingPresent := [], waitingAwait := [],
                  status := false, gather := g, defaultValue := d,
                  currentValue := d },
        joins := [], result := none } := by
    have h1 : vApplyEnd (l.length + 1)
        { currentInstant := [], endInstant := [],
          nextCurrentInstant := [], nextEndInstant := [],
          psig := { callbacks := [], waitingPresent := [], status := false },
          vsig := { callbacks := [], waitingPresent := [], waitingAwait := [Cont.ret],
                    status := true, gather := g, defaultValue := d,
                    currentValue := List.foldl g d (v :: l) },
          joins := [], result := none } =
        vApplyEnd l.length (vEndHookUpdate
        { currentInstant := [], endInstant := [],
          nextCurrentInstant := [], nextEndInstant := [],
          psig := { callbacks := [], waitingPresent := [], status := false },
          vsig := { callbacks := [], waitingPresent := [], waitingAwait := [Cont.ret],
                    status := true, gather := g, defaultValue := d,
                    currentValue := List.foldl g d (v :: l) },
          joins := [], result := none }) := rfl
    rw [h1, vEndHookUpdate_spec, vApplyEnd_fixed l.length rfl rfl rfl]
    rfl
  have hDE : DrainE (swapPhase
      { currentInstant := [],
        endInstant := List.replicate (l.length + 1) Cont.kvEndHook ++ [],
        nextCurrentInstant := [], nextEndInstant := [],
        psig := { callbacks := [], waitingPresent := [], status := false },
        vsig := { callbacks := [], waitingPresent := [], waitingAwait := [Cont.ret],
                  status := true, gather := g, defaultValue := d,
                  currentValue := List.foldl g d (v :: l) },
        joins := [], result := none })
      { currentInstant := [Cont.kcallWith Cont.ret (List.foldl g d (v :: l))],
        endInstant := [], nextCurrentInstant := [], nextEndInstant := [],
        psig := { callbacks := [], waitingPresent := [], status := false },
        vsig := { callbacks := [], waitingPresent := [], waitingAwait := [],
                  status := false, gather := g, defaultValue := d,
                  currentValue := d },
        joins := [], result := none } := by
    refine drainE_vhooks l.length [] _ _ rfl ?_
    show DrainE (vApplyEnd (l.length + 1)
      { currentInstant := [], endInstant := [],
        nextCurrentInstant := [], nextEndInstant := [],
        psig := { callbacks := [], waitingPresent := [], status := false },
        vsig := { callbacks := [], waitingPresent := [], waitingAwait := [Cont.ret],
                  status := true, gather := g, defaultValue := d,
                  currentValue := List.foldl g d (v :: l) },
        joins := [], result := none }) _
    rw [hC]
    exact DrainE.nil _ rfl
  have hI1 : InstantR (seedState g d (emitsAwaitProg (v :: l)))
      { currentInstant := [Cont.kcallWith Cont.ret (List.foldl g d (v :: l))],
        endInstant := [], nextCurrentInstant := [], nextEndInstant := [],
        psig := { callbacks := [], waitingPresent := [], status := false },
        vsig := { callbacks := [], waitingPresent := [], waitingAwait := [],
                  status := false, gather := g, defaultValue := d,
                  currentValue := d },
        joins := [], result := none } :=
    InstantR.mk _ _ _ hDC hDE
  -- instant 2: the scheduled continuation delivers the value
  have hDC2 : DrainC
      { currentInstant := [Cont.kcallWith Cont.ret (List.foldl g d (v :: l))],
        endInstant := [], nextCurrentInstant := [], nextEndInstant := [],
        psig := { callbacks := [], waitingPresent := [], status := false },
        vsig := { callbacks := [], waitingPresent := [], waitingAwait := [],
                  status := false, gather := g, defaultValue := d,
                  currentValue := d },
        joins := [], result := none }
      { currentInstant := [], endInstant := [], nextCurrentInstant := [],
        nextEndInstant := [],
        psig := { callbacks := [], waitingPresent := [], status := false },
        vsig := { callbacks := [], waitingPresent := [], waitingAwait := [],
                  status := false, gather := g, defaultValue := d,
                  currentValue := d },
        joins := [], result := some (List.foldl g d (v :: l)) } :=
    DrainC.cons _ _ _ _ _ rfl
      (steps_one rfl (steps_zero rfl (Steps.nil _))) (DrainC.nil _ rfl)
  have hI2 : InstantR
      { currentInstant := [Cont.kcallWith Cont.ret (List.foldl g d (v :: l))],
        endInstant := [], nextCurrentInstant := [], nextEndInstant := [],
        psig := { callbacks := [], waitingPresent := [], status := false },
        vsig := { callbacks := [], waitingPresent := [], waitingAwait := [],
                  status := false, gather := g, defaultValue := d,
                  currentValue := d },
        joins := [], result := none }
      (swapPhase
      { currentInstant := [], endInstant := [], nextCurrentInstant := [],
        nextEndInstant := [],
        psig := { callbacks := [], waitingPresent := [], status := false },
        vsig := { callbacks := [], waitingPresent := [], waitingAwait := [],
                  status := false, gather := g, defaultValue := d,
                  currentValue := d },
        joins := [], result := some (List.foldl g d (v :: l)) }) :=
    InstantR.mk _ _ _ hDC2 (DrainE.nil _ rfl)
  have hE : ExecR (seedState g d (emitsAwaitProg (v :: l)))
      (swapPhase
      { currentInstant := [], endInstant := [], nextCurrentInstant := [],
        nextEndInstant := [],
        psig := { callbacks := [], waitingPresent := [], status := false },
        vsig := { callbacks := [], waitingPresent := [], waitingAwait := [],
                  status := false, gather := g, defaultValue := d,
                  currentValue := d },
        joins := [], result := some (List.foldl g d (v :: l)) }) 2 :=
    ExecR.more _ _ _ 1 hI1 rfl (ExecR.last _ _ hI2 rfl)
  obtain ⟨f, hf⟩ := execR_to_fuel hE
  exact ⟨f, by rw [execResult, executeProcess_eq, hf]; rfl⟩

/-- C2 (amended): a pure signal emitted during phase A of an instant is
reset to absent by that instant's phase B — after `instant()` returns,
the status is `false` for any number `m` of phase-A emits (first
conjunct); but an emit performed by a continuation running during
phase B (the else branch of `if_else` over `present()`) leaves the
status `true` at that boundary, and the reset hook it registers runs
only at the end of the next instant (second conjunct: status after
instant 1 is `true`, after instant 2 is `false`). -/
theorem c2_status_reset :
    (∀ (g : RVal → RVal → RVal) (d : RVal) (m : Nat), ∃ f,
      (instant f (seedState g d (pemits m))).map (fun r => r.1.psig.status) =
        some false) ∧
    ((instant 40 (seedState natAdd (RVal.nat 0) phaseBEmitProg)).bind
      (fun r => (instant 40 r.1).map
        (fun r2 => (r.1.psig.status, r2.1.psig.status))) = some (true, false)) := by
  constructor
  · intro g d m
    cases m with
    | zero =>
        have hDC : DrainC (seedState g d (pemits 0))
            { initState g d with result := some RVal.unit } :=
          DrainC.cons _ _ _ _ _ rfl
            (steps_one rfl (steps_one rfl (steps_zero rfl (Steps.nil _))))
            (DrainC.nil _ rfl)
        have hI : InstantR (seedState g d (pemits 0))
            (swapPhase { initState g d with result := some RVal.unit }) :=
          InstantR.mk _ _ _ hDC (DrainE.nil _ rfl)
        obtain ⟨f, hf⟩ := instantR_to_fuel hI
        exact ⟨f, by rw [hf]; rfl⟩
    | succ mm =>
        have hstA : ({ pApplyEmits (mm + 1) (initState g d) with
              result := some RVal.unit } : RState) =
            { currentInstant := [],
              endInstant := List.replicate (mm + 1) Cont.kpEndReset ++ [],
              nextCurrentInstant := [], nextEndInstant := [],
              psig := { callbacks := [], waitingPresent := [], status := true },
              vsig := { callbacks := [], waitingPresent := [], waitingAwait := [],
                        status := false, gather := g, defaultValue := d,
                        currentValue := d },
              joins := [], result := some RVal.unit } := by
          rw [pApplyEmits_spec (mm + 1) (initState g d) rfl rfl]
          rfl
        have hsteps : Steps
            [Task.call (Cont.krun (pemits (mm + 1)) Cont.ret) RVal.unit]
            (initState g d)
            { currentInstant := [],
              endInstant := List.replicate (mm + 1) Cont.kpEndReset ++ [],
              nextCurrentInstant := [], nextEndInstant := [],
              psig := { callbacks := [], waitingPresent := [], status := true },
              vsig := { callbacks := [], waitingPresent := [], waitingAwait := [],
                        status := false, gather := g, defaultValue := d,
                        currentValue := d },
              joins := [], result := some RVal.unit } := by
          rw [← hstA]
          exact steps_one rfl (pemits_steps (mm + 1) Cont.ret [] _ _
            (steps_zero rfl (Steps.nil _)))
        have hDC : DrainC (seedState g d (pemits (mm + 1)))
            { currentInstant := [],
              endInstant := List.replicate (mm + 1) Cont.kpEndReset ++ [],
              nextCurrentInstant := [], nextEndInstant := [],
              psig := { callbacks := [], waitingPresent := [], status := true },
              vsig := { callbacks := [], waitingPresent := [], waitingAwait := [],
                        status := false, gather := g, defaultValue := d,
                        currentValue := d },
              joins := [], result := some RVal.unit } :=
          DrainC.cons _ _ _ _ _ rfl hsteps (DrainC.nil _ rfl)
        have hDE : DrainE (swapPhase
            { currentInstant := [],
              endInstant := List.replicate (mm + 1) Cont.kpEndReset ++ [],
              nextCurrentInstant := [], nextEndInstant := [],
              psig := { callbacks := [], waitingPresent := [], status := true },
              vsig := { callbacks := [], waitingPresent := [], waitingAwait := [],
                        status := false, gather := g, defaultValue := d,
                        currentValue := d },
              joins := [], result := some RVal.unit })
            { currentInstant := [], endInstant := [],
              nextCurrentInstant := [], nextEndInstant := [],
              psig := { callbacks := [], waitingPresent := [], status := false },
              vsig := { callbacks := [], waitingPresent := [], waitingAwait := [],
                        status := false, gather := g, defaultValue := d,
                        currentValue := d },
              joins := [], result := some RVal.unit } := by
          refine drainE_resets mm [] _ _ rfl ?_
          exact DrainE.nil _ rfl
        have hI : InstantR (seedState g d (pemits (mm + 1)))
            { currentInstant := [], endInstant := [],
              nextCurrentInstant := [], nextEndInstant := [],
              psig := { callbacks := [], waitingPresent := [], status := false },
              vsig := { callbacks := [], waitingPresent := [], waitingAwait := [],
                        status := false, gather := g, defaultValue := d,
                        currentValue := d },
              joins := [], result := some RVal.unit } :=
          InstantR.mk _ _ _ hDC hDE
        obtain ⟨f, hf⟩ := instantR_to_fuel hI
        exact ⟨f, by rw [hf]; rfl⟩
  · decide

/-- C5: on the graph `pemits m; join(pemits n, S.present())` — `m` emits
before the `present()` is initiated and `n` emits after it, all within
phase A of instant 1 — the `present()` resolves to `true` exactly when
some emit occurs in the instant (`0 < m + n`), whatever the relative
order; with no emit it is resolved to `false` by the end-of-instant hook
during phase B of the same instant.  In all cases the result is
available after one `instant()`. -/
theorem c5_present_iff_emit (g : RVal → RVal → RVal) (d : RVal) (m n : Nat) :
    ∃ f, execResult f g d (presentProg m n) =
      some (some (RVal.pair RVal.unit (RVal.bool (decide (0 < m + n)))), 1) := by
  cases m with
  | succ mm =>
      -- the present() runs with the signal already present: true at once
      have hPA : pApplyEmits (mm + 1) (initState g d) =
          ⟨[], List.replicate (mm + 1) Cont.kpEndReset ++ [], [], [],
           ⟨[], [], true⟩, ⟨[], [], [], false, g, d, d⟩, [], none⟩ := by
        rw [pApplyEmits_spec (mm + 1) (initState g d) rfl rfl]
        rfl
      have hsteps : Steps
          [Task.call (Cont.krun (presentProg (mm + 1) n) Cont.ret) RVal.unit]
          (initState g d)
          ⟨[Cont.kjoinSeed false Proc.ppresent 0,
            Cont.kjoinSeed true (pemits n) 0],
           List.replicate (mm + 1) Cont.kpEndReset ++ [], [], [],
           ⟨[], [], true⟩, ⟨[], [], [], false, g, d, d⟩,
           [⟨none, none, some Cont.ret⟩], none⟩ := by
        refine steps_one rfl ?_
        refine steps_one rfl ?_
        refine pemits_steps (mm + 1) _ _ _ _ ?_
        rw [hPA]
        exact steps_one rfl (steps_zero rfl (Steps.nil _))
      have hpop2 : Steps
          [Task.call (Cont.kjoinSeed false Proc.ppresent 0) RVal.unit]
          (⟨[Cont.kjoinSeed true (pemits n) 0],
            List.replicate (mm + 1) Cont.kpEndReset ++ [], [], [],
            ⟨[], [], true⟩, ⟨[], [], [], false, g, d, d⟩,
            [⟨none, none, some Cont.ret⟩], none⟩ : RState)
          ⟨[Cont.kjoinSeed true (pemits n) 0],
           List.replicate (mm + 1) Cont.kpEndReset ++ [], [], [],
           ⟨[], [], true⟩, ⟨[], [], [], false, g, d, d⟩,
           [⟨none, some (RVal.bool true), some Cont.ret⟩], none⟩ :=
        steps_one rfl (steps_one rfl (steps_zero rfl (Steps.nil _)))
      have hP3 : pApplyEmits n
          (⟨[], List.replicate (mm + 1) Cont.kpEndReset ++ [], [], [],
            ⟨[], [], true⟩, ⟨[], [], [], false, g, d, d⟩,
            [⟨none, some (RVal.bool true), some Cont.ret⟩], none⟩ : RState) =
          ⟨[], List.replicate n Cont.kpEndReset ++
               (List.replicate (mm + 1) Cont.kpEndReset ++ []), [], [],
           ⟨[], [], true⟩, ⟨[], [], [], false, g, d, d⟩,
           [⟨none, some (RVal.bool true), some Cont.ret⟩], none⟩ := by
        rw [pApplyEmits_spec n _ rfl rfl]
        rfl
      have hpop3 : Steps
          [Task.call (Cont.kjoinSeed true (pemits n) 0) RVal.unit]
          (⟨[], List.replicate (mm + 1) Cont.kpEndReset ++ [], [], [],
            ⟨[], [], true⟩, ⟨[], [], [], false, g, d, d⟩,
            [⟨none, some (RVal.bool true), some Cont.ret⟩], none⟩ : RState)
          ⟨[], List.replicate n Cont.kpEndReset ++
               (List.replicate (mm + 1) Cont.kpEndReset ++ []), [], [],
           ⟨[], [], true⟩, ⟨[], [], [], false, g, d, d⟩,
           [⟨none, none, none⟩],
           some (RVal.pair RVal.unit (RVal.bool true))⟩ := by
        refine steps_one rfl ?_
        refine pemits_steps n _ _ _ _ ?_
        rw [hP3]
        exact steps_one rfl (steps_zero rfl (Steps.nil _))
      have hDC : DrainC (seedState g d (presentProg (mm + 1) n))
          ⟨[], List.replicate n Cont.kpEndReset ++
               (List.replicate (mm + 1) Cont.kpEndReset ++ []), [], [],
           ⟨[], [], true⟩, ⟨[], [], [], false, g, d, d⟩,
           [⟨none, none, none⟩],
           some (RVal.pair RVal.unit (RVal.bool true))⟩ := by
        refine DrainC.cons _ _ _ _ _ rfl hsteps ?_
        refine DrainC.cons _ _ _ _ _ rfl hpop2 ?_
        exact DrainC.cons _ _ _ _ _ rfl hpop3 (DrainC.nil _ rfl)
      have hDE : DrainE (swapPhase
          ⟨[], List.replicate n Cont.kpEndReset ++
               (List.replicate (mm + 1) Cont.kpEndReset ++ []), [], [],
           ⟨[], [], true⟩, ⟨[], [], [], false, g, d, d⟩,
           [⟨none, none, none⟩],
           some (RVal.pair RVal.unit (RVal.bool true))⟩)
          ⟨[], [], [], [], ⟨[], [], false⟩, ⟨[], [], [], false, g, d, d⟩,
           [⟨none, none, none⟩],
           some (RVal.pair RVal.unit (RVal.bool true))⟩ := by
        refine drainE_resets (n + mm) [] _ _ ?_ ?_
        · show List.replicate n Cont.kpEndReset ++
            (List.replicate (mm + 1) Cont.kpEndReset ++ []) =
            List.replicate (n + mm + 1) Cont.kpEndReset ++ []
          rw [← List.append_assoc, ← List.replicate_add]
          rfl
        · exact DrainE.nil _ rfl
      have hE : ExecR (seedState g d (presentProg (mm + 1) n))
          ⟨[], [], [], [], ⟨[], [], false⟩, ⟨[], [], [], false, g, d, d⟩,
           [⟨none, none, none⟩],
           some (RVal.pair RVal.unit (RVal.bool true))⟩ 1 :=
        ExecR.last _ _ (InstantR.mk _ _ _ hDC hDE) rfl
      obtain ⟨f, hf⟩ := execR_to_fuel hE
      refine ⟨f, ?_⟩
      rw [execResult, executeProcess_eq, hf,
        decide_eq_true (show 0 < mm + 1 + n by omega)]
      rfl
  | zero =>
      cases n with
      | zero =>
          -- no emit at all: false is delivered by the phase-B hook
          have hDC : DrainC (seedState g d (presentProg 0 0))
              ⟨[], [Cont.kpFalseHook], [], [],
               ⟨[], [Cont.kjoinFill false 0], false⟩,
               ⟨[], [], [], false, g, d, d⟩,
               [⟨some RVal.unit, none, some Cont.ret⟩], none⟩ := by
            refine DrainC.cons _ _ _ _ _ rfl
              (steps_one rfl (steps_one rfl (steps_one rfl
                (steps_one rfl (steps_zero rfl (Steps.nil _)))))) ?_
            refine DrainC.cons _ _ _ _ _ rfl
              (steps_one rfl (steps_zero rfl (Steps.nil _))) ?_
            exact DrainC.cons _ _ _ _ _ rfl
              (steps_one rfl (steps_one rfl (steps_zero rfl (Steps.nil _))))
              (DrainC.nil _ rfl)
          have hDE : DrainE (swapPhase
              ⟨[], [Cont.kpFalseHook], [], [],
               ⟨[], [Cont.kjoinFill false 0], false⟩,
               ⟨[], [], [], false, g, d, d⟩,
               [⟨some RVal.unit, none, some Cont.ret⟩], none⟩)
              ⟨[], [], [], [], ⟨[], [], false⟩, ⟨[], [], [], false, g, d, d⟩,
               [⟨none, none, none⟩],
               some (RVal.pair RVal.unit (RVal.bool false))⟩ := by
            refine DrainE.cons _ _ _ _ _ rfl ?_ (DrainE.nil _ rfl)
            exact steps_two rfl (steps_one rfl (steps_zero rfl
              (steps_zero rfl (Steps.nil _))))
          have hE : ExecR (seedState g d (presentProg 0 0))
              ⟨[], [], [], [], ⟨[], [], false⟩, ⟨[], [], [], false, g, d, d⟩,
               [⟨none, none, none⟩],
               some (RVal.pair RVal.unit (RVal.bool false))⟩ 1 :=
            ExecR.last _ _ (InstantR.mk _ _ _ hDC hDE) rfl
          obtain ⟨f, hf⟩ := execR_to_fuel hE
          exact ⟨f, by rw [execResult, executeProcess_eq, hf]; rfl⟩
      | succ nn =>
          -- the present() is pending when the first of the n emits fires:
          -- its waiter is rescheduled with true within the same phase A
          have hP3 : pApplyEmits (nn + 1)
              (⟨[], [Cont.kpFalseHook], [], [],
                ⟨[], [Cont.kjoinFill false 0], false⟩,
                ⟨[], [], [], false, g, d, d⟩,
                [⟨none, none, some Cont.ret⟩], none⟩ : RState) =
              ⟨[Cont.kcallWith (Cont.kjoinFill false 0) (RVal.bool true)],
               List.replicate nn Cont.kpEndReset ++
                 (Cont.kpEndReset :: [Cont.kpFalseHook]), [], [],
               ⟨[], [], true⟩, ⟨[], [], [], false, g, d, d⟩,
               [⟨none, none, some Cont.ret⟩], none⟩ := by
            have h1 : pApplyEmits (nn + 1)
                (⟨[], [Cont.kpFalseHook], [], [],
                  ⟨[], [Cont.kjoinFill false 0], false⟩,
                  ⟨[], [], [], false, g, d, d⟩,
                  [⟨none, none, some Cont.ret⟩], none⟩ : RState) =
                pApplyEmits nn (pEmitUpdate
                (⟨[], [Cont.kpFalseHook], [], [],
                  ⟨[], [Cont.kjoinFill false 0], false⟩,
                  ⟨[], [], [], false, g, d, d⟩,
                  [⟨none, none, some Cont.ret⟩], none⟩ : RState)) := rfl
            rw [h1, pEmitUpdate_one_waiter rfl rfl,
              pApplyEmits_spec nn _ rfl rfl]
            rfl
          have hseed : Steps
              [Task.call (Cont.krun (presentProg 0 (nn + 1)) Cont.ret) RVal.unit]
              (initState g d)
              ⟨[Cont.kjoinSeed false Proc.ppresent 0,
                Cont.kjoinSeed true (pemits (nn + 1)) 0],
               [], [], [], ⟨[], [], false⟩, ⟨[], [], [], false, g, d, d⟩,
               [⟨none, none, some Cont.ret⟩], none⟩ :=
            steps_one rfl (steps_one rfl (steps_one rfl
              (steps_one rfl (steps_zero rfl (Steps.nil _)))))
          have hpop2 : Steps
              [Task.call (Cont.kjoinSeed false Proc.ppresent 0) RVal.unit]
              (⟨[Cont.kjoinSeed true (pemits (nn + 1)) 0],
                [], [], [], ⟨[], [], false⟩, ⟨[], [], [], false, g, d, d⟩,
                [⟨none, none, some Cont.ret⟩], none⟩ : RState)
              ⟨[Cont.kjoinSeed true (pemits (nn + 1)) 0],
               [Cont.kpFalseHook], [], [],
               ⟨[], [Cont.kjoinFill false 0], false⟩,
               ⟨[], [], [], false, g, d, d⟩,
               [⟨none, none, some Cont.ret⟩], none⟩ :=
            steps_one rfl (steps_zero rfl (Steps.nil _))
          have hpop3 : Steps
              [Task.call (Cont.kjoinSeed true (pemits (nn + 1)) 0) RVal.unit]
              (⟨[], [Cont.kpFalseHook], [], [],
                ⟨[], [Cont.kjoinFill false 0], false⟩,
                ⟨[], [], [], false, g, d, d⟩,
                [⟨none, none, some Cont.ret⟩], none⟩ : RState)
              ⟨[Cont.kcallWith (Cont.kjoinFill false 0) (RVal.bool true)],
               List.replicate nn Cont.kpEndReset ++
                 (Cont.kpEndReset :: [Cont.kpFalseHook]), [], [],
               ⟨[], [], true⟩, ⟨[], [], [], false, g, d, d⟩,
               [⟨some RVal.unit, none, some Cont.ret⟩], none⟩ := by
            refine steps_one rfl ?_
            refine pemits_steps (nn + 1) _ _ _ _ ?_
            rw [hP3]
            exact steps_zero rfl (Steps.nil _)
          have hpop4 : Steps
              [Task.call (Cont.kcallWith (Cont.kjoinFill false 0)
                (RVal.bool true)) RVal.unit]
              (⟨[], List.replicate nn Cont.kpEndReset ++
                  (Cont.kpEndReset :: [Cont.kpFalseHook]), [], [],
                ⟨[], [], true⟩, ⟨[], [], [], false, g, d, d⟩,
                [⟨some RVal.unit, none, some Cont.ret⟩], none⟩ : RState)
              ⟨[], List.replicate nn Cont.kpEndReset ++
                  (Cont.kpEndReset :: [Cont.kpFalseHook]), [], [],
               ⟨[], [], true⟩, ⟨[], [], [], false, g, d, d⟩,
               [⟨none, none, none⟩],
               some (RVal.pair RVal.unit (RVal.bool true))⟩ :=
            steps_one rfl (steps_one rfl (steps_zero rfl (Steps.nil _)))
          have hDC : DrainC (seedState g d (presentProg 0 (nn + 1)))
              ⟨[], List.replicate nn Cont.kpEndReset ++
                  (Cont.kpEndReset :: [Cont.kpFalseHook]), [], [],
               ⟨[], [], true⟩, ⟨[], [], [], false, g, d, d⟩,
               [⟨none, none, none⟩],
               some (RVal.pair RVal.unit (RVal.bool true))⟩ := by
            refine DrainC.cons _ _ _ _ _ rfl hseed ?_
            refine DrainC.cons _ _ _ _ _ rfl hpop2 ?_
            refine DrainC.cons _ _ _ _ _ rfl hpop3 ?_
            exact DrainC.cons _ _ _ _ _ rfl hpop4 (DrainC.nil _ rfl)
          have hDE : DrainE (swapPhase
              ⟨[], List.replicate nn Cont.kpEndReset ++
                  (Cont.kpEndReset :: [Cont.kpFalseHook]), [], [],
               ⟨[], [], true⟩, ⟨[], [], [], false, g, d, d⟩,
               [⟨none, none, none⟩],
               some (RVal.pair RVal.unit (RVal.bool true))⟩)
              ⟨[], [], [], [], ⟨[], [], false⟩, ⟨[], [], [], false, g, d, d⟩,
               [⟨none, none, none⟩],
               some (RVal.pair RVal.unit (RVal.bool true))⟩ := by
            refine drainE_resets nn [Cont.kpFalseHook] _ _ ?_ ?_
            · show List.replicate nn Cont.kpEndReset ++
                (Cont.kpEndReset :: [Cont.kpFalseHook]) =
                List.replicate (nn + 1) Cont.kpEndReset ++ [Cont.kpFalseHook]
              rw [replicate_append_cons]
            · exact DrainE.cons _ _ _ _ _ rfl
                (steps_zero rfl (Steps.nil _)) (DrainE.nil _ rfl)
          have hE : ExecR (seedState g d (presentProg 0 (nn + 1)))
              ⟨[], [], [], [], ⟨[], [], false⟩, ⟨[], [], [], false, g, d, d⟩,
               [⟨none, none, none⟩],
               some (RVal.pair RVal.unit (RVal.bool true))⟩ 1 :=
            ExecR.last _ _ (InstantR.mk _ _ _ hDC hDE) rfl
          obtain ⟨f, hf⟩ := execR_to_fuel hE
          refine ⟨f, ?_⟩
          rw [execResult, executeProcess_eq, hf,
            decide_eq_true (show 0 < 0 + (nn + 1) by omega)]
          rfl

end ReactiveRS
